import Mathlib

/-!
Verification of the auditory traffic monitoring pipeline (`test.py`).

The embedding models the repository's detection-and-direction pipeline:
sample buffers are lists of frames (one list of per-channel rational
amplitudes per frame), a sample rate is a rational, and every fallible
call returns `Except PyError`.  External library routines (scipy, numpy,
acoular) that the repository delegates to are modelled at the level of
their documented contracts, each with a doc comment saying exactly which
part is external.
-/

/-- Error kinds.  `valueError` stands for the unstructured exceptions numpy,
scipy and acoular raise internally (shape mismatches, reductions over empty
arrays, negative dimensions).  `invalidRateError` and `geometryMismatchError`
are the distinguishable error kinds named by the specification's error
taxonomy; the repository code defines no exception classes of its own, and
these constructors exist only so that the specification's claims about them
can be stated and compared with the code's behavior. -/
inductive PyError where
  | valueError
  | invalidRateError
  | geometryMismatchError
  deriving DecidableEq, Repr

/-- Embedding of `acoular.TimeSamples` as used by `test.py`: a 2-D sample
buffer (`data[frame][channel]`) plus a sample rate.  Amplitudes are modelled
as rationals. -/
structure TimeSamples where
  data : List (List ℚ)
  sample_freq : ℚ
  deriving DecidableEq, Repr

/-- Channel count of a signal: the length of a frame (numpy `shape[1]`). -/
def numchannels (ts : TimeSamples) : ℕ := (ts.data.headD []).length

/-- Python's built-in `round` on a real value: round half to even. -/
def pyRound (q : ℚ) : ℤ :=
  let f := q.floor
  let fr := q - f
  if fr < 1/2 then f
  else if 1/2 < fr then f + 1
  else if f % 2 = 0 then f else f + 1

/-- Model of the external `scipy.signal.resample` routine (line 45 of
`test.py`) at the level of its documented contract: the output has exactly
`num` frames and the input's channel layout, each output frame depending
only on the input frames of the same channels (resampling acts along the
frame axis, channels stay index-aligned).  The exact FFT amplitude values
are external floating-point numerics; the repository code relies only on the
frame/channel structure, modelled here by nearest-index frame sampling. -/
def scipy_resample (data : List (List ℚ)) (num : ℕ) : List (List ℚ) :=
  (List.range num).map fun i => data.getD (i * data.length / num) []

/-- Embedding of `resample_acoular_ts` (`test.py` lines 27-49): if the rate
already matches, the input object itself is returned; otherwise the new
frame count is `round(len(data) * target_fs / fs)` and the data is resampled
to that many frames.  numpy rejects a negative dimension count with an
unstructured error, hence the `num < 0` branch. -/
def resample_acoular_ts (ts : TimeSamples) (target_fs : ℚ) : Except PyError TimeSamples :=
  if ts.sample_freq ≠ target_fs then
    let num : ℤ := pyRound ((ts.data.length : ℚ) * target_fs / ts.sample_freq)
    if num < 0 then .error .valueError
    else .ok ⟨scipy_resample ts.data num.toNat, target_fs⟩
  else .ok ts

/-- Sum of elementwise products of two frames (truncating to the shorter). -/
def frameDot (x y : List ℚ) : ℚ := (List.zipWith (· * ·) x y).sum

/-- Sum over all frames and channels of elementwise products. -/
def dot2 (a v : List (List ℚ)) : ℚ := (List.zipWith frameDot a v).sum

/-- Model of the external `scipy.signal.correlate(a, v, mode ..)` call of
`test.py` line 70 for the shapes the program feeds it: two 2-D arrays with
the same frame count (both truncated to the common minimum), each
rectangular with channel counts `ca` and `cv`.  scipy returns an empty
array when either input is empty.  Otherwise the valid output has
`|ca - cv| + 1` entries — one frame lag fully overlaps, and the narrower
array slides across the channel axis of the wider one.  When the first
input is at least as wide (`cv ≤ ca`), entry `j` is the sum over frames of
the dot product of `v`'s rows against `a`'s rows offset by `j` channels;
when the first input is narrower, scipy swaps the operands and reverses the
result, giving entry `j` as the dot product of `a`'s rows against `v`'s
rows offset by `cv - ca - j` channels.  With equal channel counts this is
the single scalar `dot2 a v`. -/
def scipy_correlate_valid (a v : List (List ℚ)) : List ℚ :=
  if a = [] ∨ v = [] then []
  else
    let ca := (a.headD []).length
    let cv := (v.headD []).length
    if cv ≤ ca then
      (List.range (ca - cv + 1)).map fun j => dot2 (a.map (List.drop j)) v
    else
      (List.range (cv - ca + 1)).map fun j => dot2 a (v.map (List.drop (cv - ca - j)))

/-- The correlation sequence `match_car_sound` computes (`test.py` lines
63-70): truncate both buffers to the common minimum frame count, then
valid-mode correlate test against reference. -/
def correlation_sequence (reference_ts test_ts : TimeSamples) : List ℚ :=
  let min_length := min reference_ts.data.length test_ts.data.length
  scipy_correlate_valid (test_ts.data.take min_length) (reference_ts.data.take min_length)

/-- Maximum of a nonempty list, 0 on the empty list (only used nonempty). -/
def np_max_val (xs : List ℚ) : ℚ :=
  match xs with
  | [] => 0
  | x :: rest => rest.foldl max x

/-- The maximum of the correlation sequence after it is divided by its own
maximum (`test.py` lines 71-73). -/
def normalized_correlation_max (reference_ts test_ts : TimeSamples) : ℚ :=
  let correlation := correlation_sequence reference_ts test_ts
  let mx := np_max_val correlation
  np_max_val (correlation.map (· / mx))

/-- Embedding of `match_car_sound` (`test.py` lines 51-73).  `np.max` of an
empty array raises an unstructured error.  When the correlation maximum is
zero, numpy's division yields NaN entries (0/0), the subsequent maximum is
NaN, and `NaN > threshold` is `False`, so the function returns `False`;
that branch is made explicit here.  Otherwise every value is divided by the
maximum and the result is `max(normalized) > threshold`. -/
def match_car_sound (reference_ts test_ts : TimeSamples) (threshold : ℚ) : Except PyError Bool :=
  let correlation := correlation_sequence reference_ts test_ts
  if correlation = [] then .error .valueError
  else
    let mx := np_max_val correlation
    if mx = 0 then .ok false
    else .ok (decide (np_max_val (correlation.map (· / mx)) > threshold))

/-- Index of the first occurrence of the maximum of a list (`np.argmax` over
the flattened array), 0 on the empty list (numpy raises there; callers
guard). -/
def np_argmax : List ℚ → ℕ
  | [] => 0
  | [_] => 0
  | x :: y :: rest =>
    let k := np_argmax (y :: rest)
    if (y :: rest).getD k 0 > x then k + 1 else 0

/-- Column count of a 2-D power map (numpy `shape[1]`). -/
def colCount (Lm : List (List ℚ)) : ℕ := (Lm.headD []).length

/-- Embedding of the direction inference of `beamform_and_detect_direction`
(`test.py` lines 94-96): `np.argmax` over the flattened row-major map
(raising on an empty map), `np.unravel_index` to recover the column index
`k % shape[1]`, then `left-to-right` iff the column index minus
`shape[1] // 2` is positive. -/
def detect_direction (Lm : List (List ℚ)) : Except PyError String :=
  let flat := Lm.flatten
  if flat = [] then .error .valueError
  else
    let k := np_argmax flat
    let x_direction : ℤ := ((k % colCount Lm : ℕ) : ℤ) - ((colCount Lm / 2 : ℕ) : ℤ)
    if x_direction > 0 then .ok "left-to-right" else .ok "right-to-left"

/-- Microphone array geometry: an ordered list of 3-D positions (the
contents of the geometry file `acoular.MicGeom` reads). -/
abbrev MicGeom := List (ℚ × ℚ × ℚ)

/-- Shape-level model of the external acoular beamforming chain of
`test.py` lines 88-93 (`PowerSpectra` → `MicGeom` → `SteeringVector` →
`BeamformerBase.synthetic` → `L_p`): the beamformer applies per-microphone
steering vectors to the signal's per-channel cross-spectral matrix, so when
the signal's channel count differs from the microphone count the underlying
library linear algebra fails with an unstructured error; the repository
code performs no check of its own.  The numeric dB power values over the
search grid are external floating-point FFT computation and enter as the
parameter `Lm`. -/
def acoular_beamform_Lp (channels mics : ℕ) (Lm : List (List ℚ)) :
    Except PyError (List (List ℚ)) :=
  if channels = mics then .ok Lm else .error .valueError

/-- Embedding of `beamform_and_detect_direction` (`test.py` lines 75-96):
run the acoular beamforming chain, then infer the direction label from the
resulting dB power map. -/
def beamform_and_detect_direction (test_ts : TimeSamples)
    (mic_array_geometry : MicGeom) (Lm : List (List ℚ)) : Except PyError String :=
  match acoular_beamform_Lp (numchannels test_ts) mic_array_geometry.length Lm with
  | .error e => .error e
  | .ok m => detect_direction m

/-- The report `main` prints at the end of a run: the detection counter and
the timestamped detection log (`test.py` lines 107-124). -/
structure DetectionReport where
  cars_detected : ℕ
  detection_times : List ℚ
  deriving DecidableEq, Repr

/-- Embedding of `main` (`test.py` lines 98-124) after the two signals have
been loaded (the wav loader is external I/O): resample the test signal to
the reference's rate, run the matcher at the default threshold 0.7, and on
a match run the beamformer, count one detection and log the current time
`now`; with no match, report zero detections and an empty log.  (The name
`main` itself is reserved by Lean for executables.) -/
def main_pipeline (reference_ts test_ts0 : TimeSamples) (mic_array_geometry : MicGeom)
    (Lm : List (List ℚ)) (now : ℚ) : Except PyError DetectionReport :=
  match resample_acoular_ts test_ts0 reference_ts.sample_freq with
  | .error e => .error e
  | .ok test_ts =>
    match match_car_sound reference_ts test_ts (7/10) with
    | .error e => .error e
    | .ok matched =>
      if matched then
        match beamform_and_detect_direction test_ts mic_array_geometry Lm with
        | .error e => .error e
        | .ok _direction => .ok ⟨1, [now]⟩
      else .ok ⟨0, []⟩

/-! ### Helper lemmas -/

lemma ratFloor_eq (q : ℚ) : q.floor = ⌊q⌋ := by
  rw [Rat.floor_def', Rat.floor_def]

lemma pyRound_nonneg (q : ℚ) (hq : 0 ≤ q) : 0 ≤ pyRound q := by
  have hf : 0 ≤ ⌊q⌋ := Int.floor_nonneg.mpr hq
  simp only [pyRound, ratFloor_eq]
  split_ifs <;> omega

lemma pyRound_nonpos (q : ℚ) (hq : q ≤ 0) : pyRound q ≤ 0 := by
  have hf : ⌊q⌋ ≤ 0 := Int.floor_nonpos hq
  have hfl : (⌊q⌋ : ℚ) ≤ q := Int.floor_le q
  simp only [pyRound, ratFloor_eq]
  split_ifs with h1 h2 h3
  · exact hf
  · have hneg : ⌊q⌋ < 0 := by
      by_contra hc
      push_neg at hc
      have hc0 : (0 : ℚ) ≤ (⌊q⌋ : ℚ) := by exact_mod_cast hc
      have h1' := not_lt.mp h1
      linarith
    omega
  · exact hf
  · have hneg : ⌊q⌋ < 0 := by
      by_contra hc
      push_neg at hc
      have hc0 : (0 : ℚ) ≤ (⌊q⌋ : ℚ) := by exact_mod_cast hc
      have h1' := not_lt.mp h1
      linarith
    omega

lemma drop_zero_fun {α : Type} : (List.drop 0 : List α → List α) = fun l => l :=
  funext fun l => List.drop_zero l

lemma range_one_eq : List.range 1 = [0] := rfl

lemma correlation_sequence_nil_of_min_eq_zero (r t : TimeSamples)
    (h : min r.data.length t.data.length = 0) :
    correlation_sequence r t = [] := by
  simp [correlation_sequence, scipy_correlate_valid, h]

lemma correlation_sequence_eq_of_channels (r t : TimeSamples) (C : ℕ)
    (hm : 0 < min r.data.length t.data.length)
    (hr : ∀ f ∈ r.data, f.length = C) (ht : ∀ f ∈ t.data, f.length = C) :
    correlation_sequence r t =
      [dot2 (t.data.take (min r.data.length t.data.length))
        (r.data.take (min r.data.length t.data.length))] := by
  obtain ⟨ft, t1, htd⟩ := List.exists_cons_of_ne_nil (show t.data ≠ [] by
    intro hnil
    rw [hnil] at hm
    simp at hm)
  obtain ⟨fr, r1, hrd⟩ := List.exists_cons_of_ne_nil (show r.data ≠ [] by
    intro hnil
    rw [hnil] at hm
    simp at hm)
  obtain ⟨k, hk⟩ : ∃ k, min r.data.length t.data.length = k + 1 :=
    ⟨min r.data.length t.data.length - 1, by omega⟩
  have hft : ft.length = C := ht ft (by rw [htd]; exact List.mem_cons_self ft t1)
  have hfr : fr.length = C := hr fr (by rw [hrd]; exact List.mem_cons_self fr r1)
  simp only [correlation_sequence, scipy_correlate_valid]
  rw [hk, htd, hrd, List.take_succ_cons, List.take_succ_cons]
  rw [if_neg (by simp)]
  simp [hft, hfr, range_one_eq, drop_zero_fun]

lemma correlation_sequence_self (ref : TimeSamples) (hne : ref.data ≠ []) :
    correlation_sequence ref ref = [dot2 ref.data ref.data] := by
  simp only [correlation_sequence, min_self, List.take_length, scipy_correlate_valid]
  rw [if_neg (by simp [hne])]
  simp [range_one_eq, drop_zero_fun]

/-! ### C6 -/

/-- C6: for every signal, resampling to the signal's own rate returns the
input signal itself unchanged (the identity branch of
`resample_acoular_ts`). -/
theorem claim_C6_resample_identity (ts : TimeSamples) :
    resample_acoular_ts ts ts.sample_freq = .ok ts := by
  simp [resample_acoular_ts]

/-! ### C8 -/

/-- C8 counterexample: at target rate 0 (a non-positive rate) on a one-frame
signal at rate 44100, `resample_acoular_ts` returns a zero-frame signal; it
does not fail at all, let alone with a distinguishable invalid-rate error. -/
theorem counterexample_C8_rate_zero_returns_signal :
    resample_acoular_ts ⟨[[1]], 44100⟩ 0 = .ok ⟨[], 0⟩ := by
  simp [resample_acoular_ts, pyRound, scipy_resample, Rat.floor_def']

/-- C8 (amended): the resampler performs no target-rate validation.  For a
target rate r ≤ 0 and a positive source rate it either returns a zero-frame
signal (when the rounded frame count is 0) or fails with numpy's unstructured
negative-dimension error; it never fails with the specification's
distinguishable `InvalidRateError`. -/
theorem claim_C8_no_invalid_rate_error (ts : TimeSamples) (r : ℚ)
    (hr : r ≤ 0) (hfs : 0 < ts.sample_freq) :
    (resample_acoular_ts ts r = .ok ⟨[], r⟩ ∨
      resample_acoular_ts ts r = .error .valueError) ∧
    resample_acoular_ts ts r ≠ .error .invalidRateError := by
  have hne : ts.sample_freq ≠ r := by
    intro h
    rw [h] at hfs
    linarith
  have hnum : (ts.data.length : ℚ) * r ≤ 0 :=
    mul_nonpos_of_nonneg_of_nonpos (Nat.cast_nonneg _) hr
  have hq : (ts.data.length : ℚ) * r / ts.sample_freq ≤ 0 :=
    div_nonpos_of_nonpos_of_nonneg hnum hfs.le
  have hpr := pyRound_nonpos _ hq
  simp only [resample_acoular_ts, ne_eq, hne, not_false_iff, if_true]
  rcases lt_or_eq_of_le hpr with hlt | heq
  · rw [if_pos hlt]
    exact ⟨Or.inr rfl, by simp⟩
  · rw [if_neg (by omega)]
    refine ⟨Or.inl ?_, by simp⟩
    simp [scipy_resample, ← heq]

/-- C8 witness for the amended theorem, at target rate 0 on a concrete
signal. -/
theorem claim_C8_witness :
    ((0 : ℚ) ≤ 0 ∧ (0 : ℚ) < 2) ∧
    ((resample_acoular_ts ⟨[[1]], 2⟩ 0 = .ok ⟨[], 0⟩ ∨
      resample_acoular_ts ⟨[[1]], 2⟩ 0 = .error .valueError) ∧
     resample_acoular_ts ⟨[[1]], 2⟩ 0 ≠ .error .invalidRateError) :=
  ⟨⟨le_rfl, by norm_num⟩, claim_C8_no_invalid_rate_error ⟨[[1]], 2⟩ 0 le_rfl (by norm_num)⟩

/-! ### C2 -/

/-- C2 counterexample: with an empty reference signal, `match_car_sound`
fails (numpy's maximum of the empty correlation array raises) instead of
returning false. -/
theorem counterexample_C2_empty_input_raises :
    match_car_sound ⟨[], 44100⟩ ⟨[[1]], 44100⟩ (7/10) = .error .valueError ∧
    match_car_sound ⟨[], 44100⟩ ⟨[[1]], 44100⟩ (7/10) ≠ .ok false := by
  constructor <;>
    simp [match_car_sound, correlation_sequence, scipy_correlate_valid]

/-- C2 (amended): whenever either signal has zero frames (so both are empty
after truncation to the common minimum), the matcher fails with numpy's
unstructured error — scipy returns an empty correlation array for empty
inputs and taking its maximum raises — rather than returning false. -/
theorem claim_C2_empty_input_errors (r t : TimeSamples) (θ : ℚ)
    (h : min r.data.length t.data.length = 0) :
    match_car_sound r t θ = .error .valueError := by
  have hc : correlation_sequence r t = [] :=
    correlation_sequence_nil_of_min_eq_zero r t h
  simp [match_car_sound, hc]

/-- C2 witness for the amended theorem. -/
theorem claim_C2_witness :
    min (⟨[], 44100⟩ : TimeSamples).data.length
      (⟨[[1]], 44100⟩ : TimeSamples).data.length = 0 ∧
    match_car_sound ⟨[], 44100⟩ ⟨[[1]], 44100⟩ (1/2) = .error .valueError :=
  ⟨rfl, claim_C2_empty_input_errors ⟨[], 44100⟩ ⟨[[1]], 44100⟩ (1/2) rfl⟩

/-! ### C9 -/

/-- C9 counterexample: a 2-channel signal against a 4-microphone geometry
makes the beamforming chain fail with the library's unstructured error, not
with a distinguishable geometry-mismatch error (no such exception exists in
the repository). -/
theorem counterexample_C9_library_error :
    numchannels ⟨[[1, 1]], 8⟩ ≠ ([(0,0,0), (1,0,0), (2,0,0), (3,0,0)] : MicGeom).length ∧
    beamform_and_detect_direction ⟨[[1, 1]], 8⟩ [(0,0,0), (1,0,0), (2,0,0), (3,0,0)] [[1]]
      = .error .valueError ∧
    beamform_and_detect_direction ⟨[[1, 1]], 8⟩ [(0,0,0), (1,0,0), (2,0,0), (3,0,0)] [[1]]
      ≠ .error .geometryMismatchError := by
  refine ⟨by simp [numchannels], ?_, ?_⟩ <;>
    simp [beamform_and_detect_direction, acoular_beamform_Lp, numchannels]

/-- C9 (amended): when the signal's channel count differs from the
microphone count, the repository code performs no explicit check; the
failure is the external library's unstructured error, never a
distinguishable `GeometryMismatchError`. -/
theorem claim_C9_no_geometry_error (ts : TimeSamples) (mg : MicGeom)
    (Lm : List (List ℚ)) (h : numchannels ts ≠ mg.length) :
    beamform_and_detect_direction ts mg Lm = .error .valueError ∧
    beamform_and_detect_direction ts mg Lm ≠ .error .geometryMismatchError := by
  simp [beamform_and_detect_direction, acoular_beamform_Lp, h]

/-- C9 witness for the amended theorem. -/
theorem claim_C9_witness :
    numchannels ⟨[[1]], 8⟩ ≠ ([(0,0,0), (1,0,0)] : MicGeom).length ∧
    (beamform_and_detect_direction ⟨[[1]], 8⟩ [(0,0,0), (1,0,0)] [[2]]
        = .error .valueError ∧
     beamform_and_detect_direction ⟨[[1]], 8⟩ [(0,0,0), (1,0,0)] [[2]]
        ≠ .error .geometryMismatchError) :=
  ⟨by simp [numchannels],
   claim_C9_no_geometry_error ⟨[[1]], 8⟩ [(0,0,0), (1,0,0)] [[2]] (by simp [numchannels])⟩

/-! ### Correlation positivity lemmas -/

lemma frameDot_self_nonneg (x : List ℚ) : 0 ≤ frameDot x x := by
  unfold frameDot
  rw [List.zipWith_same]
  apply List.sum_nonneg
  intro q hq
  obtain ⟨a, _, rfl⟩ := List.mem_map.mp hq
  exact mul_self_nonneg a

lemma frameDot_self_pos (x : List ℚ) (h : ∃ a ∈ x, a ≠ 0) : 0 < frameDot x x := by
  induction x with
  | nil =>
    obtain ⟨a, ha, _⟩ := h
    exact absurd ha (List.not_mem_nil a)
  | cons a t ih =>
    have hcons : frameDot (a :: t) (a :: t) = a * a + frameDot t t := by
      simp [frameDot]
    rw [hcons]
    obtain ⟨b, hb, hb0⟩ := h
    rcases List.mem_cons.mp hb with rfl | hbt
    · have h1 : 0 < b * b := mul_self_pos.mpr hb0
      have h2 : 0 ≤ frameDot t t := frameDot_self_nonneg t
      linarith
    · have h1 : 0 < frameDot t t := ih ⟨b, hbt, hb0⟩
      have h2 : 0 ≤ a * a := mul_self_nonneg a
      linarith

lemma dot2_self_nonneg (a : List (List ℚ)) : 0 ≤ dot2 a a := by
  unfold dot2
  rw [List.zipWith_same]
  apply List.sum_nonneg
  intro q hq
  obtain ⟨f, _, rfl⟩ := List.mem_map.mp hq
  exact frameDot_self_nonneg f

lemma dot2_self_pos (a : List (List ℚ)) (h : ∃ f ∈ a, ∃ x ∈ f, x ≠ 0) :
    0 < dot2 a a := by
  induction a with
  | nil =>
    obtain ⟨f, hf, _⟩ := h
    exact absurd hf (List.not_mem_nil f)
  | cons g t ih =>
    have hcons : dot2 (g :: t) (g :: t) = frameDot g g + dot2 t t := by
      simp [dot2]
    rw [hcons]
    obtain ⟨f, hf, hx⟩ := h
    rcases List.mem_cons.mp hf with rfl | hft
    · have h1 : 0 < frameDot f f := frameDot_self_pos f hx
      have h2 : 0 ≤ dot2 t t := dot2_self_nonneg t
      linarith
    · have h1 : 0 < dot2 t t := ih ⟨f, hft, hx⟩
      have h2 : 0 ≤ frameDot g g := frameDot_self_nonneg g
      linarith

/-! ### C1 -/

/-- C1 counterexample: a mono reference against a 4-channel test frame is
reachable (the two wav files need not share a channel count), and there
valid-mode correlation yields four values, not one; in this instance every
value is non-zero, the maximum is negative, and dividing the sequence by
its own maximum makes the normalized maximum 2, not 1. -/
theorem counterexample_C1_unequal_channels :
    correlation_sequence ⟨[[1/2]], 8⟩ ⟨[[-1/2, -1/4, -1/4, -1/4]], 8⟩
      = [-1/4, -1/8, -1/8, -1/8] ∧
    (∃ x ∈ correlation_sequence ⟨[[1/2]], 8⟩ ⟨[[-1/2, -1/4, -1/4, -1/4]], 8⟩,
      x ≠ 0) ∧
    normalized_correlation_max ⟨[[1/2]], 8⟩ ⟨[[-1/2, -1/4, -1/4, -1/4]], 8⟩ = 2 := by
  have hseq : correlation_sequence ⟨[[1/2]], 8⟩ ⟨[[-1/2, -1/4, -1/4, -1/4]], 8⟩
      = [-1/4, -1/8, -1/8, -1/8] := by
    simp [correlation_sequence, scipy_correlate_valid, dot2, frameDot,
      (show List.range 4 = [0, 1, 2, 3] from rfl)]
    norm_num
  refine ⟨hseq, ⟨-1/4, by rw [hseq]; simp, by norm_num⟩, ?_⟩
  simp only [normalized_correlation_max, hseq]
  norm_num [np_max_val, max_def]

/-- C1 (amended): when the two signals have the same channel count — the
setting in which the correlation sequence is the single fully-overlapping
lag — whenever some value of the correlation sequence is non-zero, dividing
the sequence by its own maximum gives a sequence whose maximum is exactly
1, and the matcher returns true if and only if that normalized maximum
strictly exceeds the threshold.  (With differing channel counts the
sequence has several values and its normalized maximum can differ from 1 —
see the counterexample.) -/
theorem claim_C1_normalized_max_one (r t : TimeSamples) (θ : ℚ) (C : ℕ)
    (hr : ∀ f ∈ r.data, f.length = C) (ht : ∀ f ∈ t.data, f.length = C)
    (h : ∃ x ∈ correlation_sequence r t, x ≠ 0) :
    normalized_correlation_max r t = 1 ∧
    match_car_sound r t θ = .ok (decide (normalized_correlation_max r t > θ)) := by
  obtain ⟨x, hx, hx0⟩ := h
  by_cases hm : min r.data.length t.data.length = 0
  · rw [correlation_sequence_nil_of_min_eq_zero r t hm] at hx
    exact absurd hx (List.not_mem_nil x)
  · have hseq := correlation_sequence_eq_of_channels r t C
      (Nat.pos_of_ne_zero hm) hr ht
    rw [hseq] at hx
    have hxc := List.mem_singleton.mp hx
    rw [hxc] at hx0
    have hnorm : normalized_correlation_max r t = 1 := by
      simp [normalized_correlation_max, hseq, np_max_val, div_self hx0]
    refine ⟨hnorm, ?_⟩
    rw [hnorm]
    simp [match_car_sound, hseq, np_max_val, hx0, div_self hx0]

/-- C1 witness for the amended theorem. -/
theorem claim_C1_witness :
    ((∀ f ∈ (⟨[[1]], 4⟩ : TimeSamples).data, f.length = 1) ∧
     (∃ x ∈ correlation_sequence ⟨[[1]], 4⟩ ⟨[[1]], 4⟩, x ≠ 0)) ∧
    (normalized_correlation_max ⟨[[1]], 4⟩ ⟨[[1]], 4⟩ = 1 ∧
     match_car_sound ⟨[[1]], 4⟩ ⟨[[1]], 4⟩ (7/10)
        = .ok (decide (normalized_correlation_max ⟨[[1]], 4⟩ ⟨[[1]], 4⟩ > 7/10))) := by
  have hx : ∃ x ∈ correlation_sequence ⟨[[1]], 4⟩ ⟨[[1]], 4⟩, x ≠ 0 := by
    refine ⟨1, ?_, one_ne_zero⟩
    simp [correlation_sequence, scipy_correlate_valid, dot2, frameDot]
  exact ⟨⟨by simp, hx⟩, claim_C1_normalized_max_one ⟨[[1]], 4⟩ ⟨[[1]], 4⟩ (7/10) 1
    (by simp) (by simp) hx⟩

/-! ### C4 -/

/-- C4 counterexample: the all-zero one-frame signal is non-empty and the
threshold 1/2 is below 1, yet matching the signal against itself returns
false — the correlation is 0, the normalization divides 0 by 0 (NaN), and
the NaN threshold comparison is false. -/
theorem counterexample_C4_zero_signal_self_match :
    (⟨[[0]], 16000⟩ : TimeSamples).data ≠ [] ∧ (1/2 : ℚ) < 1 ∧
    match_car_sound ⟨[[0]], 16000⟩ ⟨[[0]], 16000⟩ (1/2) = .ok false := by
  refine ⟨by simp, by norm_num, ?_⟩
  simp [match_car_sound, correlation_sequence, scipy_correlate_valid, dot2,
    frameDot, np_max_val, range_one_eq, drop_zero_fun]

/-- C4 (amended): matching a signal against itself returns true for every
threshold below 1, provided the signal is non-empty and has at least one
non-zero sample (for the all-zero signal the correlation is 0 and the NaN
comparison returns false instead). -/
theorem claim_C4_self_match (ref : TimeSamples) (θ : ℚ) (hθ : θ < 1)
    (h : ∃ f ∈ ref.data, ∃ x ∈ f, x ≠ 0) :
    match_car_sound ref ref θ = .ok true := by
  have hne : ref.data ≠ [] := by
    obtain ⟨f, hf, _⟩ := h
    intro hnil
    rw [hnil] at hf
    exact absurd hf (List.not_mem_nil f)
  have hseq : correlation_sequence ref ref = [dot2 ref.data ref.data] :=
    correlation_sequence_self ref hne
  have hpos : 0 < dot2 ref.data ref.data := dot2_self_pos ref.data h
  have h0 : dot2 ref.data ref.data ≠ 0 := ne_of_gt hpos
  simp [match_car_sound, hseq, np_max_val, h0, div_self h0, hθ]

/-- C4 witness for the amended theorem. -/
theorem claim_C4_witness :
    ((1/2 : ℚ) < 1 ∧ ∃ f ∈ (⟨[[1]], 16000⟩ : TimeSamples).data, ∃ x ∈ f, x ≠ 0) ∧
    match_car_sound ⟨[[1]], 16000⟩ ⟨[[1]], 16000⟩ (1/2) = .ok true :=
  ⟨⟨by norm_num, [1], by simp, 1, by simp, one_ne_zero⟩,
   claim_C4_self_match ⟨[[1]], 16000⟩ (1/2) (by norm_num)
     ⟨[1], by simp, 1, by simp, one_ne_zero⟩⟩

/-! ### Indexing helpers and sum expansion -/

lemma getD_take_lt {α : Type} {l : List α} {n i : ℕ} (h : i < n) (d : α) :
    (l.take n).getD i d = l.getD i d := by
  simp [List.getD, List.getElem?_take, h]

lemma getD_mem {α : Type} {l : List α} {i : ℕ} (h : i < l.length) (d : α) :
    l.getD i d ∈ l := by
  rw [List.getD_eq_getElem _ _ h]
  exact List.getElem_mem h

lemma zipWith_sum_eq_sum_range {α β : Type} (f : α → β → ℚ) (d1 : α) (d2 : β)
    (xs : List α) (ys : List β) :
    (List.zipWith f xs ys).sum =
      ∑ i ∈ Finset.range (min xs.length ys.length),
        f (xs.getD i d1) (ys.getD i d2) := by
  induction xs generalizing ys with
  | nil => simp
  | cons a xt ih =>
    cases ys with
    | nil => simp
    | cons b yt =>
      have hmin : min (a :: xt).length (b :: yt).length = min xt.length yt.length + 1 := by
        simp [List.length_cons, Nat.succ_min_succ]
      rw [List.zipWith_cons_cons, List.sum_cons, hmin, Finset.sum_range_succ']
      simp only [List.getD_cons_succ, List.getD_cons_zero, ih yt]
      ring

lemma frameDot_eq_sum (x y : List ℚ) (C : ℕ) (hx : x.length = C) (hy : y.length = C) :
    frameDot x y = ∑ c ∈ Finset.range C, x.getD c 0 * y.getD c 0 := by
  unfold frameDot
  rw [zipWith_sum_eq_sum_range (· * ·) 0 0, hx, hy, min_self]

lemma np_max_val_singleton (x : ℚ) : np_max_val [x] = x := rfl

lemma match_car_sound_singleton (r t : TimeSamples) (θ c : ℚ)
    (hseq : correlation_sequence r t = [c]) :
    match_car_sound r t θ =
      if c = 0 then .ok false else .ok (decide (c / c > θ)) := by
  simp only [match_car_sound, hseq, np_max_val_singleton, List.map_cons, List.map_nil]
  rw [if_neg (List.cons_ne_nil c [])]

/-! ### C3 -/

/-- C3: after truncation to the (positive) common minimum frame count, the
valid-mode correlation the matcher computes is one single scalar — the sum
over all frames and channels of elementwise products of test and reference,
not a per-channel sequence — and for every threshold strictly between 0 and
1 the matcher returns true exactly when that scalar is non-zero. -/
theorem claim_C3_single_scalar_correlation (r t : TimeSamples) (θ : ℚ) (C : ℕ)
    (hm : 0 < min r.data.length t.data.length)
    (hr : ∀ f ∈ r.data, f.length = C) (ht : ∀ f ∈ t.data, f.length = C)
    (hθ0 : 0 < θ) (hθ1 : θ < 1) :
    correlation_sequence r t =
      [∑ i ∈ Finset.range (min r.data.length t.data.length),
        ∑ c ∈ Finset.range C,
          (t.data.getD i []).getD c 0 * (r.data.getD i []).getD c 0] ∧
    (match_car_sound r t θ = .ok true ↔
      (∑ i ∈ Finset.range (min r.data.length t.data.length),
        ∑ c ∈ Finset.range C,
          (t.data.getD i []).getD c 0 * (r.data.getD i []).getD c 0) ≠ 0) := by
  have hm0 : min r.data.length t.data.length ≠ 0 := Nat.pos_iff_ne_zero.mp hm
  have hmr : min r.data.length t.data.length ≤ r.data.length := min_le_left _ _
  have hmt : min r.data.length t.data.length ≤ t.data.length := min_le_right _ _
  have hlt : (t.data.take (min r.data.length t.data.length)).length
      = min r.data.length t.data.length := by
    rw [List.length_take]
    omega
  have hlr : (r.data.take (min r.data.length t.data.length)).length
      = min r.data.length t.data.length := by
    rw [List.length_take]
    omega
  have hS : dot2 (t.data.take (min r.data.length t.data.length))
      (r.data.take (min r.data.length t.data.length)) =
      ∑ i ∈ Finset.range (min r.data.length t.data.length),
        ∑ c ∈ Finset.range C,
          (t.data.getD i []).getD c 0 * (r.data.getD i []).getD c 0 := by
    unfold dot2
    rw [zipWith_sum_eq_sum_range frameDot [] [], hlt, hlr, min_self]
    apply Finset.sum_congr rfl
    intro i hi
    have hi' := Finset.mem_range.mp hi
    rw [getD_take_lt hi', getD_take_lt hi']
    apply frameDot_eq_sum
    · exact ht _ (getD_mem (by omega) [])
    · exact hr _ (getD_mem (by omega) [])
  have hseq : correlation_sequence r t =
      [∑ i ∈ Finset.range (min r.data.length t.data.length),
        ∑ c ∈ Finset.range C,
          (t.data.getD i []).getD c 0 * (r.data.getD i []).getD c 0] := by
    rw [correlation_sequence_eq_of_channels r t C hm hr ht, hS]
  refine ⟨hseq, ?_⟩
  have hmatch := match_car_sound_singleton r t θ _ hseq
  by_cases h0 : (∑ i ∈ Finset.range (min r.data.length t.data.length),
      ∑ c ∈ Finset.range C,
        (t.data.getD i []).getD c 0 * (r.data.getD i []).getD c 0) = 0
  · rw [hmatch, if_pos h0]
    constructor
    · intro hco
      exact absurd hco (by simp)
    · intro hne
      exact absurd h0 hne
  · rw [hmatch, if_neg h0, div_self h0]
    exact iff_of_true (by rw [decide_eq_true hθ1]) h0

/-- C3 witness. -/
theorem claim_C3_witness :
    (0 < min (⟨[[1, 0], [0, 1]], 8⟩ : TimeSamples).data.length
        (⟨[[2, 1], [1, 3]], 8⟩ : TimeSamples).data.length ∧
     (∀ f ∈ (⟨[[1, 0], [0, 1]], 8⟩ : TimeSamples).data, f.length = 2) ∧
     (∀ f ∈ (⟨[[2, 1], [1, 3]], 8⟩ : TimeSamples).data, f.length = 2) ∧
     (0 : ℚ) < 1/2 ∧ (1/2 : ℚ) < 1) ∧
    (correlation_sequence ⟨[[1, 0], [0, 1]], 8⟩ ⟨[[2, 1], [1, 3]], 8⟩ =
      [∑ i ∈ Finset.range (min (⟨[[1, 0], [0, 1]], 8⟩ : TimeSamples).data.length
          (⟨[[2, 1], [1, 3]], 8⟩ : TimeSamples).data.length),
        ∑ c ∈ Finset.range 2,
          ((⟨[[2, 1], [1, 3]], 8⟩ : TimeSamples).data.getD i []).getD c 0 *
            ((⟨[[1, 0], [0, 1]], 8⟩ : TimeSamples).data.getD i []).getD c 0] ∧
     (match_car_sound ⟨[[1, 0], [0, 1]], 8⟩ ⟨[[2, 1], [1, 3]], 8⟩ (1/2) = .ok true ↔
       (∑ i ∈ Finset.range (min (⟨[[1, 0], [0, 1]], 8⟩ : TimeSamples).data.length
           (⟨[[2, 1], [1, 3]], 8⟩ : TimeSamples).data.length),
         ∑ c ∈ Finset.range 2,
           ((⟨[[2, 1], [1, 3]], 8⟩ : TimeSamples).data.getD i []).getD c 0 *
             ((⟨[[1, 0], [0, 1]], 8⟩ : TimeSamples).data.getD i []).getD c 0) ≠ 0)) :=
  ⟨⟨by norm_num, by simp, by simp, by norm_num, by norm_num⟩,
   claim_C3_single_scalar_correlation ⟨[[1, 0], [0, 1]], 8⟩ ⟨[[2, 1], [1, 3]], 8⟩ (1/2) 2
     (by norm_num) (by simp) (by simp) (by norm_num) (by norm_num)⟩

/-! ### argmax and flatten lemmas -/

lemma np_argmax_lt_length (xs : List ℚ) (h : xs ≠ []) :
    np_argmax xs < xs.length := by
  induction xs with
  | nil => exact absurd rfl h
  | cons x t ih =>
    cases t with
    | nil => simp [np_argmax]
    | cons y r =>
      simp only [np_argmax]
      split_ifs
      · have hlt := ih (List.cons_ne_nil y r)
        simpa [List.length_cons] using Nat.succ_lt_succ hlt
      · simp

lemma np_argmax_is_max (xs : List ℚ) :
    ∀ i < xs.length, xs.getD i 0 ≤ xs.getD (np_argmax xs) 0 := by
  induction xs with
  | nil => intro i hi; simp at hi
  | cons x t ih =>
    cases t with
    | nil =>
      intro i hi
      have hi0 : i = 0 := by
        simp [List.length_cons] at hi
        omega
      subst hi0
      simp [np_argmax]
    | cons y r =>
      intro i hi
      simp only [np_argmax]
      split_ifs with hcond
      · rw [List.getD_cons_succ]
        cases i with
        | zero => rw [List.getD_cons_zero]; exact le_of_lt hcond
        | succ j =>
          rw [List.getD_cons_succ]
          exact ih j (by simpa [List.length_cons] using hi)
      · rw [List.getD_cons_zero]
        cases i with
        | zero => rw [List.getD_cons_zero]
        | succ j =>
          rw [List.getD_cons_succ]
          have h1 := ih j (by simpa [List.length_cons] using hi)
          have h2 := not_lt.mp hcond
          exact le_trans h1 h2

lemma np_argmax_first_occurrence (xs : List ℚ) :
    ∀ i < np_argmax xs, xs.getD i 0 < xs.getD (np_argmax xs) 0 := by
  induction xs with
  | nil => intro i hi; simp [np_argmax] at hi
  | cons x t ih =>
    cases t with
    | nil => intro i hi; simp [np_argmax] at hi
    | cons y r =>
      intro i hi
      simp only [np_argmax] at hi ⊢
      split_ifs with hcond
      · rw [List.getD_cons_succ]
        rw [if_pos hcond] at hi
        cases i with
        | zero => rw [List.getD_cons_zero]; exact hcond
        | succ j =>
          rw [List.getD_cons_succ]
          exact ih j (Nat.lt_of_succ_lt_succ hi)
      · rw [if_neg hcond] at hi
        exact absurd hi (Nat.not_lt_zero i)

lemma flatten_getD (Lm : List (List ℚ)) (w : ℕ) (hw : 0 < w)
    (hrect : ∀ row ∈ Lm, row.length = w) (n : ℕ) (hn : n < Lm.flatten.length) :
    Lm.flatten.getD n 0 = (Lm.getD (n / w) []).getD (n % w) 0 := by
  induction Lm generalizing n with
  | nil => simp at hn
  | cons row rest ih =>
    have hrow : row.length = w := hrect row (List.mem_cons_self row rest)
    rw [List.flatten_cons] at hn ⊢
    by_cases hlt : n < w
    · rw [List.getD_append _ _ _ _ (by rw [hrow]; exact hlt)]
      rw [Nat.div_eq_of_lt hlt, Nat.mod_eq_of_lt hlt, List.getD_cons_zero]
    · push_neg at hlt
      obtain ⟨k, rfl⟩ : ∃ k, n = w + k := ⟨n - w, by omega⟩
      rw [List.getD_append_right _ _ _ _ (by rw [hrow]; omega), hrow]
      rw [Nat.add_div_left _ hw, Nat.add_mod_left, List.getD_cons_succ]
      have hsub : w + k - w = k := by omega
      rw [hsub]
      have hk : k < rest.flatten.length := by
        rw [List.length_append, hrow] at hn
        omega
      exact ih (fun q hq => hrect q (List.mem_cons_of_mem _ hq)) k hk

/-! ### C5 -/

/-- C5: the direction inference locates the maximum cell of the dB power map
via argmax over the row-major flattening (ties broken by the first
occurrence), and the beamformer returns left-to-right exactly when that
cell's column index minus half the column count is positive, right-to-left
in every other case (peak at or left of center included). -/
theorem claim_C5_direction_from_argmax (ts : TimeSamples) (mg : MicGeom)
    (Lm : List (List ℚ)) (hgeom : numchannels ts = mg.length)
    (hrect : ∀ row ∈ Lm, row.length = colCount Lm) (hne : Lm.flatten ≠ []) :
    (np_argmax Lm.flatten < Lm.flatten.length ∧
     (∀ i < Lm.flatten.length,
        Lm.flatten.getD i 0 ≤ Lm.flatten.getD (np_argmax Lm.flatten) 0) ∧
     (∀ i < np_argmax Lm.flatten,
        Lm.flatten.getD i 0 < Lm.flatten.getD (np_argmax Lm.flatten) 0) ∧
     Lm.flatten.getD (np_argmax Lm.flatten) 0 =
       (Lm.getD (np_argmax Lm.flatten / colCount Lm) []).getD
         (np_argmax Lm.flatten % colCount Lm) 0) ∧
    (beamform_and_detect_direction ts mg Lm = .ok "left-to-right" ↔
      0 < ((np_argmax Lm.flatten % colCount Lm : ℕ) : ℤ)
            - ((colCount Lm / 2 : ℕ) : ℤ)) ∧
    (beamform_and_detect_direction ts mg Lm = .ok "right-to-left" ↔
      ¬ 0 < ((np_argmax Lm.flatten % colCount Lm : ℕ) : ℤ)
            - ((colCount Lm / 2 : ℕ) : ℤ)) := by
  have hw : 0 < colCount Lm := by
    obtain ⟨x, hx⟩ := List.exists_mem_of_ne_nil _ hne
    obtain ⟨row, hrowm, hxrow⟩ := List.mem_flatten.mp hx
    have h1 : row ≠ [] := by
      intro hnil
      rw [hnil] at hxrow
      exact absurd hxrow (List.not_mem_nil x)
    have h2 := hrect row hrowm
    have h3 := List.length_pos.mpr h1
    omega
  have hbeam : beamform_and_detect_direction ts mg Lm = detect_direction Lm := by
    simp [beamform_and_detect_direction, acoular_beamform_Lp, hgeom]
  have hdet : detect_direction Lm =
      if 0 < ((np_argmax Lm.flatten % colCount Lm : ℕ) : ℤ)
            - ((colCount Lm / 2 : ℕ) : ℤ)
      then .ok "left-to-right" else .ok "right-to-left" := by
    simp only [detect_direction, gt_iff_lt]
    rw [if_neg hne]
  refine ⟨⟨np_argmax_lt_length _ hne, np_argmax_is_max _,
    np_argmax_first_occurrence _,
    flatten_getD Lm (colCount Lm) hw hrect _ (np_argmax_lt_length _ hne)⟩, ?_, ?_⟩
  · rw [hbeam, hdet]
    by_cases hdir : 0 < ((np_argmax Lm.flatten % colCount Lm : ℕ) : ℤ)
        - ((colCount Lm / 2 : ℕ) : ℤ)
    · rw [if_pos hdir]
      exact iff_of_true rfl hdir
    · rw [if_neg hdir]
      constructor
      · intro hco
        exact absurd (Except.ok.inj hco) (by decide)
      · intro hco
        exact absurd hco hdir
  · rw [hbeam, hdet]
    by_cases hdir : 0 < ((np_argmax Lm.flatten % colCount Lm : ℕ) : ℤ)
        - ((colCount Lm / 2 : ℕ) : ℤ)
    · rw [if_pos hdir]
      constructor
      · intro hco
        exact absurd (Except.ok.inj hco) (by decide)
      · intro hco
        exact absurd hdir hco
    · rw [if_neg hdir]
      exact iff_of_true rfl hdir

/-- C5 witness. -/
theorem claim_C5_witness :
    (numchannels ⟨[[1]], 1⟩ = ([(0, 0, 0)] : MicGeom).length ∧
     (∀ row ∈ ([[1, 2, 3], [0, 0, 0]] : List (List ℚ)),
        row.length = colCount [[1, 2, 3], [0, 0, 0]]) ∧
     ([[1, 2, 3], [0, 0, 0]] : List (List ℚ)).flatten ≠ []) ∧
    (beamform_and_detect_direction ⟨[[1]], 1⟩ [(0, 0, 0)] [[1, 2, 3], [0, 0, 0]]
        = .ok "left-to-right" ↔
      0 < ((np_argmax ([[1, 2, 3], [0, 0, 0]] : List (List ℚ)).flatten
              % colCount [[1, 2, 3], [0, 0, 0]] : ℕ) : ℤ)
          - ((colCount [[1, 2, 3], [0, 0, 0]] / 2 : ℕ) : ℤ)) :=
  ⟨⟨rfl, by simp [colCount], by simp⟩,
   (claim_C5_direction_from_argmax ⟨[[1]], 1⟩ [(0, 0, 0)] [[1, 2, 3], [0, 0, 0]]
     rfl (by simp [colCount]) (by simp)).2.1⟩

/-! ### Resample lemmas -/

lemma scipy_resample_length (data : List (List ℚ)) (num : ℕ) :
    (scipy_resample data num).length = num := by
  simp [scipy_resample]

lemma scipy_resample_mem (data : List (List ℚ)) (num : ℕ) (hd : data ≠ [])
    (f : List ℚ) (hf : f ∈ scipy_resample data num) : f ∈ data := by
  simp only [scipy_resample, List.mem_map, List.mem_range] at hf
  obtain ⟨i, hi, rfl⟩ := hf
  have hL : 0 < data.length := List.length_pos.mpr hd
  have hidx : i * data.length / num < data.length := by
    have h1 : i * data.length < num * data.length :=
      mul_lt_mul_of_pos_right hi hL
    exact Nat.div_lt_of_lt_mul h1
  exact getD_mem hidx []

/-! ### C7 -/

/-- C7: for every positive target rate different from the signal's positive
rate, resampling succeeds and produces a signal with exactly
round(len * r / rate) frames (Python half-even rounding), the target rate as
its rate, and every frame keeping the input's channel count; the embedding
is a pure function, so the input signal is not mutated. -/
theorem claim_C7_resample_frame_count (ts : TimeSamples) (r : ℚ) (C : ℕ)
    (hr : 0 < r) (hne : r ≠ ts.sample_freq) (hfs : 0 < ts.sample_freq)
    (hC : ∀ f ∈ ts.data, f.length = C) :
    ∃ out, resample_acoular_ts ts r = .ok out ∧
      (out.data.length : ℤ) = pyRound ((ts.data.length : ℚ) * r / ts.sample_freq) ∧
      out.sample_freq = r ∧
      ∀ f ∈ out.data, f.length = C := by
  have hne2 : ts.sample_freq ≠ r := Ne.symm hne
  have hq : 0 ≤ (ts.data.length : ℚ) * r / ts.sample_freq :=
    div_nonneg (mul_nonneg (Nat.cast_nonneg _) hr.le) hfs.le
  have hpr : 0 ≤ pyRound ((ts.data.length : ℚ) * r / ts.sample_freq) :=
    pyRound_nonneg _ hq
  refine ⟨⟨scipy_resample ts.data
      (pyRound ((ts.data.length : ℚ) * r / ts.sample_freq)).toNat, r⟩, ?_, ?_, rfl, ?_⟩
  · simp only [resample_acoular_ts, ne_eq, hne2, not_false_iff, if_true]
    rw [if_neg (by omega)]
  · rw [scipy_resample_length]
    exact Int.toNat_of_nonneg hpr
  · intro f hf
    by_cases hd : ts.data = []
    · have hzero : (ts.data.length : ℚ) * r / ts.sample_freq = 0 := by
        rw [hd]
        simp
      rw [hzero] at hf
      have hpz : pyRound 0 = 0 := by
        have h1 := pyRound_nonneg 0 le_rfl
        have h2 := pyRound_nonpos 0 le_rfl
        omega
      rw [hpz] at hf
      simp [scipy_resample] at hf
    · exact hC f (scipy_resample_mem _ _ hd f hf)

/-- C7 witness: doubling the rate of a two-frame mono signal gives four
frames. -/
theorem claim_C7_witness :
    ((0 : ℚ) < 2 ∧ (2 : ℚ) ≠ (⟨[[1], [2]], 1⟩ : TimeSamples).sample_freq ∧
     (0 : ℚ) < (⟨[[1], [2]], 1⟩ : TimeSamples).sample_freq ∧
     ∀ f ∈ (⟨[[1], [2]], 1⟩ : TimeSamples).data, f.length = 1) ∧
    ∃ out, resample_acoular_ts ⟨[[1], [2]], 1⟩ 2 = .ok out ∧
      (out.data.length : ℤ) =
        pyRound (((⟨[[1], [2]], 1⟩ : TimeSamples).data.length : ℚ) * 2
          / (⟨[[1], [2]], 1⟩ : TimeSamples).sample_freq) ∧
      out.sample_freq = 2 ∧
      ∀ f ∈ out.data, f.length = 1 :=
  ⟨⟨by norm_num, by norm_num, by norm_num, by simp⟩,
   claim_C7_resample_frame_count ⟨[[1], [2]], 1⟩ 2 1
     (by norm_num) (by norm_num) (by norm_num) (by simp)⟩

/-! ### C10 -/

/-- C10: whenever the pipeline completes, the returned report carries both
the detection counter and the detection-times log, the counter equals the
length of the log, both are 0 or 1 for the single-input run, and the counter
is 1 with the timestamped event logged exactly when the matcher returned
true on the resampled signal at the default threshold 0.7 (0 and an empty
log exactly when it returned false). -/
theorem claim_C10_report_invariants (ref raw : TimeSamples) (mg : MicGeom)
    (Lm : List (List ℚ)) (now : ℚ) (rep : DetectionReport)
    (h : main_pipeline ref raw mg Lm now = .ok rep) :
    rep.cars_detected = rep.detection_times.length ∧ rep.cars_detected ≤ 1 ∧
    ∀ t0, resample_acoular_ts raw ref.sample_freq = .ok t0 →
      ((rep.cars_detected = 1 ∧ rep.detection_times = [now]) ↔
        match_car_sound ref t0 (7/10) = .ok true) ∧
      ((rep.cars_detected = 0 ∧ rep.detection_times = []) ↔
        match_car_sound ref t0 (7/10) = .ok false) := by
  unfold main_pipeline at h
  cases hres : resample_acoular_ts raw ref.sample_freq with
  | error e =>
    rw [hres] at h
    exact absurd h (by simp)
  | ok t1 =>
    rw [hres] at h
    dsimp only at h
    cases hm : match_car_sound ref t1 (7/10) with
    | error e =>
      rw [hm] at h
      exact absurd h (by simp)
    | ok b =>
      rw [hm] at h
      dsimp only at h
      cases b with
      | true =>
        rw [if_pos rfl] at h
        cases hb : beamform_and_detect_direction t1 mg Lm with
        | error e =>
          rw [hb] at h
          exact absurd h (by simp)
        | ok d =>
          rw [hb] at h
          dsimp only at h
          have hrep : rep = ⟨1, [now]⟩ := by
            have := h
            simp only [Except.ok.injEq] at this
            exact this.symm
          subst hrep
          refine ⟨rfl, le_rfl, ?_⟩
          intro t0 ht0
          have ht01 : t0 = t1 := by
            simpa using ht0.symm
          subst ht01
          constructor
          · exact ⟨fun _ => hm, fun _ => ⟨rfl, rfl⟩⟩
          · constructor
            · intro hco
              exact absurd hco.1 (by norm_num)
            · intro hfalse
              rw [hm] at hfalse
              exact absurd hfalse (by simp)
      | false =>
        rw [if_neg (by simp)] at h
        have hrep : rep = ⟨0, []⟩ := by
          have := h
          simp only [Except.ok.injEq] at this
          exact this.symm
        subst hrep
        refine ⟨rfl, by norm_num, ?_⟩
        intro t0 ht0
        have ht01 : t0 = t1 := by
          simpa using ht0.symm
        subst ht01
        constructor
        · constructor
          · intro hco
            exact absurd hco.1 (by norm_num)
          · intro htrue
            rw [hm] at htrue
            exact absurd htrue (by simp)
        · exact ⟨fun _ => hm, fun _ => ⟨rfl, rfl⟩⟩

/-- C10 witness: a complete matching run with one detection. -/
theorem claim_C10_witness :
    main_pipeline ⟨[[1]], 1⟩ ⟨[[1]], 1⟩ [(0, 0, 0)] [[1]] 5 = .ok ⟨1, [5]⟩ ∧
    ((⟨1, [5]⟩ : DetectionReport).cars_detected
        = (⟨1, [5]⟩ : DetectionReport).detection_times.length ∧
      (⟨1, [5]⟩ : DetectionReport).cars_detected ≤ 1 ∧
      ∀ t0, resample_acoular_ts ⟨[[1]], 1⟩ (⟨[[1]], 1⟩ : TimeSamples).sample_freq
          = .ok t0 →
        (((⟨1, [5]⟩ : DetectionReport).cars_detected = 1 ∧
           (⟨1, [5]⟩ : DetectionReport).detection_times = [5]) ↔
          match_car_sound ⟨[[1]], 1⟩ t0 (7/10) = .ok true) ∧
        (((⟨1, [5]⟩ : DetectionReport).cars_detected = 0 ∧
           (⟨1, [5]⟩ : DetectionReport).detection_times = []) ↔
          match_car_sound ⟨[[1]], 1⟩ t0 (7/10) = .ok false)) := by
  have hrun : main_pipeline ⟨[[1]], 1⟩ ⟨[[1]], 1⟩ [(0, 0, 0)] [[1]] 5 = .ok ⟨1, [5]⟩ := by
    simp [main_pipeline, resample_acoular_ts, match_car_sound, correlation_sequence,
      scipy_correlate_valid, dot2, frameDot, np_max_val, beamform_and_detect_direction,
      acoular_beamform_Lp, numchannels, detect_direction, np_argmax, colCount,
      range_one_eq]
    norm_num
  exact ⟨hrun, claim_C10_report_invariants ⟨[[1]], 1⟩ ⟨[[1]], 1⟩ [(0, 0, 0)] [[1]] 5
    ⟨1, [5]⟩ hrun⟩
